import Mathlib

/-!
Verification of the Axle file-sync core against its Go source.

The embedding is shallow: pure Go helpers become Lean functions on
`List Char` / `String`; functions that shell out to git or touch the
file system are modelled in a writer-style monad `M` whose environment
is a stream of answers for the external commands and whose output
records the trace of external actions that were issued.  Wall-clock
time is modelled in milliseconds as natural numbers, and Go float64
rate arithmetic is modelled by exact rationals.
-/

set_option maxRecDepth 4000

namespace Axle

/-! ### Character-list string primitives

These mirror the Go standard-library string helpers used by the source
(strings.Contains, strings.HasPrefix, strings.Split, strings.Fields,
strings.TrimSpace, strings.Index, strings.TrimPrefix). -/

/-- strings.Contains: does the pattern occur as a contiguous substring? -/
def hasSub (pat : List Char) : List Char → Bool
  | [] => pat.isEmpty
  | c :: rest => pat.isPrefixOf (c :: rest) || hasSub pat rest

/-- strings.Index: index of the first occurrence of the pattern, if any. -/
def idxSub (pat : List Char) : List Char → Option Nat
  | [] => if pat.isEmpty then some 0 else none
  | c :: rest =>
    if pat.isPrefixOf (c :: rest) then some 0
    else (idxSub pat rest).map (· + 1)

/-- strings.Contains lifted to String. -/
def strContains (s pat : String) : Bool := hasSub pat.data s.data

/-- strings.HasPrefix lifted to String. -/
def strStarts (s pat : String) : Bool := pat.data.isPrefixOf s.data

/-- strings.HasSuffix lifted to String. -/
def strEnds (s pat : String) : Bool := pat.data.isSuffixOf s.data

/-- Split a character list at every separator character, keeping empty
segments, as Go strings.Split does with a one-character separator. -/
def splitOnChar (sep : Char) : List Char → List (List Char)
  | [] => [[]]
  | c :: rest =>
    let r := splitOnChar sep rest
    if c = sep then [] :: r
    else
      match r with
      | [] => [[c]]
      | h :: t => (c :: h) :: t

/-- The lines of a string, split at newline characters. -/
def linesOf (s : String) : List (List Char) := splitOnChar '\n' s.data

/-- Split at every character satisfying the predicate. -/
def splitOnPred (p : Char → Bool) : List Char → List (List Char)
  | [] => [[]]
  | c :: rest =>
    let r := splitOnPred p rest
    if p c then [] :: r
    else
      match r with
      | [] => [[c]]
      | h :: t => (c :: h) :: t

/-- strings.Fields: whitespace-separated fields, empties dropped. -/
def fieldsOf (l : List Char) : List (List Char) :=
  (splitOnPred (fun c => c.isWhitespace) l).filter (fun f => !f.isEmpty)

/-- strings.TrimSpace on a character list. -/
def trimChars (l : List Char) : List Char :=
  ((l.dropWhile (fun c => c.isWhitespace)).reverse.dropWhile
    (fun c => c.isWhitespace)).reverse

/-- strings.TrimSpace lifted to String. -/
def strTrim (s : String) : String := String.mk (trimChars s.data)

/-- strings.TrimPrefix lifted to String. -/
def trimPrefixStr (s pre : String) : String :=
  if strStarts s pre then String.mk (s.data.drop pre.data.length) else s

/-! ### Patch validation (utils/git.go, validatePatch) -/

/-- The dangerous path patterns rejected by validatePatch, in source order. -/
def dangerousPatterns : List String :=
  ["../", "..\\", "/etc/", "\\etc\\", "/root/", "C:\\Windows\\",
   "/usr/bin/", "~/.ssh/", "~/.aws/"]

/-- Is this patch line a file-header line that validatePatch inspects? -/
def isHeaderLine (line : String) : Bool :=
  strStarts line "+++" || strStarts line "---" || strStarts line "diff --git" ||
  strContains line "rename to" || strContains line "rename from"

/-- Why validatePatch rejected a patch. -/
inductive PatchError where
  | dangerousPattern (pat : String)
  | absolutePath
  | oversize
  deriving DecidableEq, Repr

/-- Does a header line trip the absolute-path check?  The source checks
for a space-slash occurrence that is not one of the a/ b/ diff markers
and is not a /dev/null reference. -/
def lineAbsolutePath (line : String) : Bool :=
  strContains line " /" && !strContains line " a/" && !strContains line " b/" &&
  !strContains line "/dev/null"

/-- Per-line validation scan of validatePatch, first error wins. -/
def validateLines : List String → Option PatchError
  | [] => none
  | line :: rest =>
    if isHeaderLine line then
      match dangerousPatterns.find? (fun pat => strContains line pat) with
      | some pat => some (PatchError.dangerousPattern pat)
      | none =>
        if lineAbsolutePath line then some PatchError.absolutePath
        else validateLines rest
    else validateLines rest

/-- Maximum accepted patch size in bytes (10 MiB). -/
def maxPatchSize : Nat := 10 * 1024 * 1024

/-- validatePatch from utils/git.go: scan header lines for dangerous
patterns and absolute paths, then enforce the 10 MiB size cap.
Returns none when the patch is accepted. -/
def validatePatch (patch : String) : Option PatchError :=
  match validateLines ((linesOf patch).map String.mk) with
  | some e => some e
  | none =>
    if patch.utf8ByteSize > maxPatchSize then some PatchError.oversize else none

/-! ### External-effect model

Every shell-out (git, the VS Code launcher) and file-system side effect
of the consumer is an action.  A computation runs against a stream of
answers (one per action, consumed in order) and records the ordered
trace of actions it issued. -/

/-- One git invocation, identified by subcommand and payload. -/
inductive GitCmd where
  | amAbort
  | rebaseAbort
  | mergeAbort
  | am3way (patch : String)
  | amNoCommit (patch : String)
  | applyIndexReject (patch : String)
  | apply3way (patch : String)
  | apply3wayNoIndex (patch : String)
  | applyReject (patch : String)
  | applyPlain (patch : String)
  | resetHard
  | cleanFd
  | addAll
  | commit (msg : String)
  | revParseHead
  | revParseVerifyParent (hash : String)
  | showCommit (hash : String)
  | formatPatchCmd (hash : String)
  | stashPush
  | statusPorcelain
  | diffUnmerged
  deriving DecidableEq, Repr

/-- Result of an os.RemoveAll call. -/
inductive RmResult where
  | ok
  | notExist
  | fail
  deriving DecidableEq, Repr

/-- An external action issued by the modelled code. -/
inductive Act where
  | git (c : GitCmd)
  | statPath (p : String)
  | copyPath (src dst : String)
  | walkRej
  | codeVersion
  | codeOpen (files : List String)
  | removeAll (p : String)
  | sleepMs (n : Nat)
  | setMute (b : Bool)
  deriving DecidableEq, Repr

/-- The environment's answer to one action. -/
inductive Answer where
  | res (ok : Bool) (stdout stderr : String)
  | present (b : Bool)
  | files (l : List String)
  | rm (r : RmResult)
  deriving DecidableEq, Repr

/-- Read an answer as a process result (exit ok, stdout, stderr). -/
def Answer.toRes : Answer → Bool × String × String
  | .res ok o e => (ok, o, e)
  | _ => (true, "", "")

/-- Read an answer as an existence bit (os.Stat success). -/
def Answer.toPresent : Answer → Bool
  | .present b => b
  | _ => false

/-- Read an answer as a file list (directory walk result). -/
def Answer.toFiles : Answer → List String
  | .files l => l
  | _ => []

/-- Read an answer as an os.RemoveAll result. -/
def Answer.toRm : Answer → RmResult
  | .rm r => r
  | _ => RmResult.ok

/-- Writer/reader monad: answer stream and answer cursor in, result,
new cursor and action trace out. -/
def M (α : Type) : Type := (Nat → Answer) → Nat → α × Nat × List Act

instance : Monad M where
  pure a := fun _ i => (a, i, [])
  bind x f := fun env i =>
    match x env i with
    | (a, i2, t1) =>
      match f a env i2 with
      | (b, i3, t2) => (b, i3, t1 ++ t2)

/-- Issue one action and consume its answer. -/
def doAct (a : Act) : M Answer := fun env i => (env i, i + 1, [a])

/-- Run a git command, reading its answer as a process result. -/
def runGit (c : GitCmd) : M (Bool × String × String) := do
  let a ← doAct (Act.git c)
  pure a.toRes

/-! ### Repository adapter (utils/git.go) -/

/-- CommitChanges: git add ., git commit -m, git rev-parse HEAD.
Returns the new commit hash, the empty string when there was nothing
to commit, or an error. -/
def CommitChanges (message : String) : M (Except String String) := do
  let (addOk, _, addErr) ← runGit GitCmd.addAll
  if !addOk then
    pure (Except.error ("failed to stage changes (git add): " ++ addErr))
  else
    let (cOk, cOut, cErr) ← runGit (GitCmd.commit message)
    if !cOk then
      if strContains cErr "nothing to commit" ||
          strContains cErr "no changes added to commit" ||
          strContains cOut "nothing to commit" ||
          strContains cOut "working tree clean" then
        pure (Except.ok "")
      else
        pure (Except.error "failed to commit changes")
    else
      let (hOk, hOut, hErr) ← runGit GitCmd.revParseHead
      if !hOk then pure (Except.error "failed to get new commit hash")
      else pure (Except.ok (strTrim (hOut ++ hErr)))

/-- GetPatch: probe for a parent commit, then git show (initial commit)
or git format-patch (any later commit). -/
def GetPatch (commitHash : String) : M (Except String String) := do
  let (pOk, _, _) ← runGit (GitCmd.revParseVerifyParent commitHash)
  let (ok, o, e) ← runGit
    (if !pOk then GitCmd.showCommit commitHash else GitCmd.formatPatchCmd commitHash)
  if !ok then pure (Except.error "failed to generate patch")
  else pure (Except.ok (o ++ e))

/-- Why ApplyPatch (or a conflict strategy) failed. -/
inductive ApplyErr where
  | validation (e : PatchError)
  | extractDiff
  | independentApply
  | afterReset
  | formatPatchFail
  | diffPatchFail
  | resetFailed
  | mergeFailed
  deriving DecidableEq, Repr

/-- A patch is treated as message-style when it contains both a From
header marker and a Subject marker anywhere in its text. -/
def isFormatPatch (patch : String) : Bool :=
  strContains patch "From " && strContains patch "Subject:"

/-- The fallback commit of ApplyPatch for independent histories:
extract the Subject line and commit the applied diff under it. -/
def commitFromSubject (patch : String) : M Unit := do
  match idxSub "Subject: ".data patch.data with
  | some j =>
    let restChars := patch.data.drop (j + 9)
    match idxSub ['\n'] restChars with
    | some k =>
      let commitMessage := trimPrefixStr (String.mk (restChars.take k)) "[PATCH] "
      let _ ← runGit GitCmd.addAll
      let _ ← runGit (GitCmd.commit commitMessage)
      pure ()
    | none => pure ()
  | none => pure ()

/-- ApplyPatch from utils/git.go.  Validates, clears stale am/rebase
state, then chooses git am (message-style) or git apply (diff-only),
with the independent-history and overwrite fallbacks of the source.
Returns (autoCommitted, error). -/
def ApplyPatch (patch : String) : M (Bool × Option ApplyErr) := do
  match validatePatch patch with
  | some e => pure (false, some (ApplyErr.validation e))
  | none =>
    let _ ← runGit GitCmd.amAbort
    let _ ← runGit GitCmd.rebaseAbort
    if isFormatPatch patch then
      let (ok, o, e) ← runGit (GitCmd.am3way patch)
      let out := o ++ e
      if !ok then
        if strContains out "could not build fake ancestor" ||
            strContains out "sha1 information is lacking" then
          match idxSub "\n---".data patch.data with
          | none => pure (false, some ApplyErr.extractDiff)
          | some i =>
            let diffPatch := String.mk (patch.data.drop i)
            let (aOk, _, _) ← runGit (GitCmd.applyPlain diffPatch)
            if !aOk then pure (false, some ApplyErr.independentApply)
            else do
              commitFromSubject patch
              pure (true, none)
        else if strContains out "would be overwritten" ||
            strContains out "already exists" then
          let _ ← runGit GitCmd.resetHard
          let _ ← runGit GitCmd.cleanFd
          let (ok2, _, _) ← runGit (GitCmd.am3way patch)
          if !ok2 then pure (true, some ApplyErr.afterReset)
          else pure (true, none)
        else pure (true, some ApplyErr.formatPatchFail)
      else pure (true, none)
    else
      let (ok, _, _) ← runGit (GitCmd.applyIndexReject patch)
      if !ok then
        let (ok2, _, _) ← runGit (GitCmd.apply3way patch)
        if !ok2 then pure (false, some ApplyErr.diffPatchFail)
        else pure (false, none)
      else pure (false, none)

/-! ### Conflict strategies (conflict.go) -/

/-- extractFilesFromPatch: file paths named by +++/---/diff --git
header lines, a/ b/ prefixes stripped, duplicates and /dev/null
dropped. -/
def extractFilesFromPatch (patch : String) : List String :=
  (linesOf patch).foldl
    (fun files lineChars =>
      let line := String.mk lineChars
      if strStarts line "+++" || strStarts line "---" then
        match (fieldsOf lineChars).map String.mk with
        | _ :: f :: _ =>
          let f := trimPrefixStr (trimPrefixStr f "a/") "b/"
          if f ≠ "/dev/null" && !files.contains f then files ++ [f] else files
        | _ => files
      else if strStarts line "diff --git" then
        ((fieldsOf lineChars).map String.mk).foldl
          (fun fs part =>
            if strStarts part "a/" || strStarts part "b/" then
              let f := trimPrefixStr (trimPrefixStr part "a/") "b/"
              if !fs.contains f then fs ++ [f] else fs
            else fs)
          files
      else files)
    []

/-- findConflictedFiles: parse git diff --name-only --diff-filter=U
output into trimmed non-empty lines; an erroring command yields none. -/
def findConflictedFiles : M (List String) := do
  let (ok, o, _) ← runGit GitCmd.diffUnmerged
  if !ok then pure []
  else pure (((linesOf o).map (fun l => strTrim (String.mk l))).filter (· ≠ ""))

/-- openInIDE / tryOpenVSCode: probe for the code binary, then launch
it on the affected files. -/
def openInIDE (directory : String) (files : List String) : M Unit := do
  if files.isEmpty then pure ()
  else
    let v ← doAct Act.codeVersion
    if !v.toRes.1 then pure ()
    else do
      let _ ← doAct (Act.codeOpen (files.map (fun f => directory ++ "/" ++ f)))
      pure ()

/-- cleanupGitState: abort any in-progress am, rebase or merge. -/
def cleanupGitState : M Unit := do
  let _ ← runGit GitCmd.amAbort
  let _ ← runGit GitCmd.rebaseAbort
  let _ ← runGit GitCmd.mergeAbort
  pure ()

/-- applyPatchTheirs: stash local work, hard-reset, then ApplyPatch. -/
def applyPatchTheirs (patch : String) : M (Bool × Option ApplyErr) := do
  let _ ← runGit GitCmd.stashPush
  let (rOk, _, _) ← runGit GitCmd.resetHard
  if !rOk then pure (false, some ApplyErr.resetFailed)
  else ApplyPatch patch

/-- applyPatchMine: keep local state, discard the inbound patch. -/
def applyPatchMine (_patch : String) : M (Bool × Option ApplyErr) :=
  pure (false, none)

/-- applyPatchMerge: three-way application leaving conflict markers,
with the reject-file fallback of the source for diff patches. -/
def applyPatchMerge (directory patch : String) (isFP : Bool) :
    M (Bool × Option ApplyErr) := do
  if isFP then
    let (ok, o, e) ← runGit (GitCmd.amNoCommit patch)
    let out := o ++ e
    if !ok then
      let (_, so, _) ← runGit GitCmd.statusPorcelain
      if strContains so "UU" || strContains out "Applying" then
        let _ ← runGit GitCmd.addAll
        let cf ← findConflictedFiles
        if cf.length > 0 then do
          openInIDE directory cf
          pure (false, none)
        else pure (false, none)
      else pure (false, some ApplyErr.mergeFailed)
    else pure (true, none)
  else
    let (ok, _, _) ← runGit (GitCmd.apply3wayNoIndex patch)
    if !ok then
      let (ok2, o2, e2) ← runGit (GitCmd.applyReject patch)
      if ok2 || strContains (o2 ++ e2) "Applied" then
        let rej ← doAct Act.walkRej
        let rejFiles := rej.toFiles
        if rejFiles.length > 0 then do
          openInIDE directory rejFiles
          pure (false, none)
        else pure (false, none)
      else pure (false, some ApplyErr.mergeFailed)
    else pure (false, none)

/-- applyPatchBackup: copy every affected existing file to
path.backup, then ApplyPatch. -/
def applyPatchBackup (directory patch : String) : M (Bool × Option ApplyErr) := do
  let affected := extractFilesFromPatch patch
  let _ ← affected.foldlM
    (fun (acc : List String) file => do
      let full := directory ++ "/" ++ file
      let st ← doAct (Act.statPath full)
      if st.toPresent then do
        let c ← doAct (Act.copyPath full (full ++ ".backup"))
        if c.toRes.1 then pure (acc ++ [full ++ ".backup"]) else pure acc
      else pure acc)
    []
  ApplyPatch patch

/-- applyPatchInteractive: merge semantics, then open any conflicted
files in an external editor. -/
def applyPatchInteractive (directory patch : String) (isFP : Bool) :
    M (Bool × Option ApplyErr) := do
  let (auto, _) ← applyPatchMerge directory patch isFP
  let cf ← findConflictedFiles
  if cf.isEmpty then pure (auto, none)
  else do
    openInIDE directory cf
    pure (false, none)

/-- The strategy is a plain string in the source; unknown strings fall
back to plain ApplyPatch. -/
def ApplyPatchWithStrategy (directory patch strategy : String) :
    M (Bool × Option ApplyErr) := do
  match validatePatch patch with
  | some e => pure (false, some (ApplyErr.validation e))
  | none =>
    cleanupGitState
    let isFP := isFormatPatch patch
    if strategy = "theirs" then applyPatchTheirs patch
    else if strategy = "mine" then applyPatchMine patch
    else if strategy = "merge" then applyPatchMerge directory patch isFP
    else if strategy = "backup" then applyPatchBackup directory patch
    else if strategy = "interactive" then applyPatchInteractive directory patch isFP
    else ApplyPatch patch

/-! ### Sync data model (utils/metadata.go and the sync wire format) -/

/-- One file change of a sync message.  The fields are the ones the
watcher producer fills and the consumer reads: relative path, event
kind, originating commit and full patch text. -/
structure FileChange where
  file : String
  event : String
  commitHash : String
  patch : String
  deriving DecidableEq, Repr

/-- A sync message as published on the team channel. -/
structure SyncMetadata where
  version : Nat
  timestamp : Int
  peerID : String
  changes : List FileChange
  deriving DecidableEq, Repr

/-- The slice of AppConfig the consumer uses. -/
structure Cfg where
  username : String
  rootDir : String
  deriving DecidableEq, Repr

/-! ### Patch consumer (cmd start file, handleSyncMessage) -/

/-- What one inbound message produced at the consumer: the files whose
change was applied cleanly, whether any strategy auto-committed, and
the message of the synthetic commit when one was requested. -/
structure SyncResult where
  changedFiles : List String
  autoCommittedAny : Bool
  syntheticCommitMsg : Option String
  deriving DecidableEq, Repr

/-- One iteration of the consumer's change loop: apply the patch when
one is present (the deletion branch is then skipped by the source's
continue), delete on a patchless deleted event, otherwise do nothing.
Returns (file to record if the change applied, auto-committed?). -/
def processChange (cfg : Cfg) (change : FileChange) :
    M (Option String × Bool) := do
  if change.patch ≠ "" then
    let (auto, err) ← ApplyPatch change.patch
    match err with
    | some _ => pure (none, false)
    | none => pure (some change.file, auto)
  else if change.event = "deleted" then
    let a ← doAct (Act.removeAll (cfg.rootDir ++ "/" ++ change.file))
    match a.toRm with
    | RmResult.fail => pure (none, false)
    | _ => pure (some change.file, false)
  else pure (none, false)

/-- The consumer's change loop, accumulating applied files and the
auto-commit flag in source order. -/
def processChanges (cfg : Cfg) :
    List FileChange → List String → Bool → M (List String × Bool)
  | [], acc, auto => pure (acc, auto)
  | c :: rest, acc, auto => do
    let (f?, a) ← processChange cfg c
    processChanges cfg rest (acc ++ f?.toList) (auto || a)

/-- The synthetic commit message of the consumer. -/
def syncCommitMessage (n : Nat) (peer : String) : String :=
  "[SYNC] Received " ++ toString n ++ " changes from " ++ peer

/-- handleSyncMessage: drop own messages, mute the watcher, run the
change loop, synthesise a commit when something applied and nothing
auto-committed, sleep 100 ms, unmute.  Returns none on self-echo. -/
def handleSyncMessage (cfg : Cfg) (meta : SyncMetadata) :
    M (Option SyncResult) := do
  if meta.peerID = cfg.username then pure none
  else do
    let _ ← doAct (Act.setMute true)
    let (changedFiles, autoAny) ← processChanges cfg meta.changes [] false
    let msg? ←
      if changedFiles.length > 0 && !autoAny then do
        let m := syncCommitMessage changedFiles.length meta.peerID
        let _ ← CommitChanges m
        pure (some m)
      else pure (none : Option String)
    let _ ← doAct (Act.sleepMs 100)
    let _ ← doAct (Act.setMute false)
    pure (some ⟨changedFiles, autoAny, msg?⟩)

/-! ### Batch producer (utils/watcher.go, processBatchInternal) -/

/-- strings.Title restricted to what the producer feeds it: uppercase
the first letter of each space-separated word. -/
def titleStr (s : String) : String :=
  String.intercalate " "
    (((splitOnChar ' ' s.data).map
        (fun w => match w with
          | [] => ""
          | c :: r => String.mk (c.toUpper :: r))))

/-- The batch commit message: single-entry batches use title-cased
event plus path, larger ones the batch-update form. -/
def batchCommitMessage (pending : List (String × String)) : String :=
  if pending.length = 1 then
    match pending with
    | (path, event) :: _ => titleStr event ++ " " ++ path
    | [] => ""
  else "Batch update: " ++ toString pending.length ++ " files changed"

/-- processBatchInternal continued: commit, format the patch, extend
the changes buffer, always clear the pending map. -/
def processBatchInternal (pending : List (String × String))
    (changes : List FileChange) : M (List (String × String) × List FileChange) := do
  if pending.isEmpty then pure (pending, changes)
  else
    match ← CommitChanges (batchCommitMessage pending) with
    | Except.error _ => pure ([], changes)
    | Except.ok commitHash =>
      if commitHash = "" then pure ([], changes)
      else
        match ← GetPatch commitHash with
        | Except.error _ => pure ([], changes)
        | Except.ok patch =>
          pure ([], changes ++ pending.map
            (fun pe => FileChange.mk pe.1 pe.2 commitHash patch))

/-! ### Watcher event loop (utils/watcher.go)

The event loop is modelled as a pure step function on the watcher's
shared state.  Time is in milliseconds.  filepath.Rel and the
filepath.Match glob matcher are standard-library collaborators and are
supplied by the environment. -/

/-- Association-list lookup (Go map read). -/
def lookupA {α : Type} : List (String × α) → String → Option α
  | [], _ => none
  | (k, v) :: rest, key => if k = key then some v else lookupA rest key

/-- Association-list insert-or-replace (Go map write). -/
def insertA {α : Type} : List (String × α) → String → α → List (String × α)
  | [], key, val => [(key, val)]
  | (k, v) :: rest, key, val =>
    if k = key then (key, val) :: rest else (k, v) :: insertA rest key val

/-- How many entries of the association list carry the key. -/
def countKey {α : Type} (m : List (String × α)) (key : String) : Nat :=
  (m.filter (fun kv => kv.1 = key)).length

/-- os.Stat outcome for a path. -/
inductive StatResult where
  | notFound
  | statError
  | found (size : Int) (isDir : Bool)
  deriving DecidableEq, Repr

/-- The watcher's environment: root directory, ignore patterns, and
the standard-library collaborators filepath.Match (glob) and
filepath.Rel (root-relative path, none on error), plus the file
system as seen by os.Stat. -/
structure WatchEnv where
  rootDir : String
  ignorePatterns : List String
  globMatch : String → String → Bool
  rel : String → Option String
  fs : String → StatResult

/-- The watcher's shared mutable state. -/
structure WatcherState where
  muted : Bool
  lastEventTime : List (String × Nat)
  pendingFiles : List (String × String)
  recentEventCount : Nat
  lastEventReset : Nat
  batchDuration : Nat
  scheduledWindow : Option Nat
  deriving Repr

/-- File-system event kinds delivered by fsnotify. -/
inductive FsOp where
  | create
  | write
  | remove
  | rename
  | chmod
  deriving DecidableEq, Repr

/-- One raw file-system event: absolute path plus kind. -/
structure FsEvent where
  name : String
  op : FsOp
  deriving DecidableEq, Repr

/-- filepath.Base restricted to slash paths. -/
def baseOf (path : String) : String :=
  if path = "" then "."
  else
    match ((splitOnChar '/' path.data).map String.mk).filter (· ≠ "") with
    | [] => "/"
    | comps => comps.getLastD "/"

/-- isIgnored from utils/watcher.go: the git directory, swap/backup
suffixes, then the configured glob patterns against the base name. -/
def isIgnored (env : WatchEnv) (path : String) : Bool :=
  let fileName := baseOf path
  if fileName = ".git" || strContains path ".git/" then true
  else if strEnds fileName ".tmp" || strEnds fileName ".swp" ||
      strEnds fileName "~" then true
  else env.ignorePatterns.any (fun pat => env.globMatch pat fileName)

/-- The file-size cap in bytes (10 MiB). -/
def maxFileSize : Int := 10 * 1024 * 1024

/-- The known-binary extension list of isBinaryFile. -/
def binaryExts : List String :=
  [".exe", ".dll", ".so", ".dylib", ".a", ".o",
   ".zip", ".tar", ".gz", ".7z", ".rar",
   ".jpg", ".jpeg", ".png", ".gif", ".bmp", ".ico", ".svg",
   ".mp3", ".mp4", ".avi", ".mov", ".wmv",
   ".pdf", ".doc", ".docx", ".xls", ".xlsx", ".ppt", ".pptx",
   ".db", ".sqlite", ".mdb",
   ".bin", ".dat", ".iso",
   ".pyc", ".pyo", ".class"]

/-- filepath.Ext restricted to slash paths: the suffix starting at the
final dot of the final path element. -/
def extOf (path : String) : String :=
  let rev := (baseOf path).data.reverse
  if rev.contains '.' then
    String.mk ('.' :: (rev.takeWhile (· ≠ '.')).reverse)
  else ""

/-- strings.ToLower restricted to the ASCII extensions it is fed. -/
def lowerStr (s : String) : String := String.mk (s.data.map Char.toLower)

/-- isBinaryFile: extension membership in the known-binary list. -/
def isBinaryFile (path : String) : Bool :=
  binaryExts.contains (lowerStr (extOf path))

/-- shouldSkipFile: missing paths pass, unreadable ones are skipped,
directories pass, then the size cap and the binary heuristic. -/
def shouldSkipFile (fs : String → StatResult) (path : String) : Bool × String :=
  match fs path with
  | StatResult.notFound => (false, "")
  | StatResult.statError => (true, "cannot stat file")
  | StatResult.found size isDir =>
    if isDir then (false, "")
    else if size > maxFileSize then (true, "file size exceeds limit")
    else if isBinaryFile path then (true, "binary file detected")
    else (false, "")

/-- debounceEvent: accept unless the same key fired less than the
window ago; record the accept time. -/
def debounceEventF (m : List (String × Nat)) (key : String) (now window : Nat) :
    Bool × List (String × Nat) :=
  match lookupA m key with
  | some last => if now - last < window then (false, m) else (true, insertA m key now)
  | none => (true, insertA m key now)

/-- getDynamicBatchDuration: reset the counter after a minute, count
the event, and pick the window from the events-per-second rate.
float64 division is modelled exactly; a zero elapsed time is the
positive-infinity rate of the source.  Returns (window, new counter,
new reset stamp). -/
def getDynamicBatchDurationF (count lastReset now : Nat) : Nat × Nat × Nat :=
  let c0 := if now - lastReset > 60000 then 0 else count
  let r0 := if now - lastReset > 60000 then now else lastReset
  let c1 := c0 + 1
  let elapsedMs := now - r0
  let window :=
    if elapsedMs = 0 then 5000
    else if c1 * 1000 > 5 * elapsedMs then 5000
    else if c1 * 1000 > elapsedMs then 2000
    else 1000
  (window, c1, r0)

/-- addToBatch: record the latest event kind for the path and
(re)schedule the single-shot batch timer with the dynamic window. -/
def addToBatchF (now : Nat) (st : WatcherState) (filePath eventType : String) :
    WatcherState :=
  let pending := insertA st.pendingFiles filePath eventType
  let wcr := getDynamicBatchDurationF st.recentEventCount st.lastEventReset now
  { st with
    pendingFiles := pending
    recentEventCount := wcr.2.1
    lastEventReset := wcr.2.2
    scheduledWindow := some wcr.1
    batchDuration := if wcr.1 ≠ st.batchDuration then wcr.1 else st.batchDuration }

/-- One iteration of the watcher's event loop for one fsnotify event:
mute check, ignore check, relative path, then the per-kind debounce,
size/binary filter and batch insertion of the source. -/
def handleEvent (env : WatchEnv) (now : Nat) (ev : FsEvent)
    (st : WatcherState) : WatcherState :=
  if st.muted then st
  else if isIgnored env ev.name then st
  else
    match env.rel ev.name with
    | none => st
    | some relPath =>
      match ev.op with
      | FsOp.create =>
        let acm := debounceEventF st.lastEventTime ev.name now 500
        if acm.1 then
          let st2 := { st with lastEventTime := acm.2 }
          if (shouldSkipFile env.fs ev.name).1 then st2
          else addToBatchF now st2 relPath "created"
        else st
      | FsOp.write =>
        let acm := debounceEventF st.lastEventTime ev.name now 500
        if acm.1 then
          let st2 := { st with lastEventTime := acm.2 }
          if (shouldSkipFile env.fs ev.name).1 then st2
          else addToBatchF now st2 relPath "modified"
        else st
      | FsOp.remove =>
        let acm := debounceEventF st.lastEventTime ev.name now 500
        if acm.1 then
          addToBatchF now { st with lastEventTime := acm.2 } relPath "deleted"
        else st
      | FsOp.rename => addToBatchF now st relPath "renamed"
      | FsOp.chmod => st


/-! ### Fixtures and trace predicates used by the theorems -/

/-- The environment in which every external command succeeds with
empty output. -/
def allOkEnv : Nat → Answer := fun _ => Answer.res true "" ""

/-- A patch that starts with a diff file header but whose added lines
contain From and Subject markers. -/
def diffPatchWithFromSubject : String :=
  "diff --git a/f.txt b/f.txt\n--- a/f.txt\n+++ b/f.txt\n@@ -1,2 +1,2 @@\n+From the start\n+Subject: note\n"

/-- The pristine watcher state at process start. -/
def freshWatcherState : WatcherState := WatcherState.mk false [] [] 0 0 5000 none

def capFs : String → StatResult := fun n =>
  if n = "r/big.txt" then StatResult.found (10 * 1024 * 1024) false
  else StatResult.notFound

def capEnv : WatchEnv := WatchEnv.mk "r" [] (fun _ _ => false)
  (fun n => if n = "r/big.txt" then some "big.txt" else none) capFs

def cexEnv : WatchEnv := WatchEnv.mk "r" [] (fun _ _ => false)
  (fun n => if n = "r/a.txt" then some "a.txt" else none)
  (fun _ => StatResult.found 5 false)

/-- Is this action a git invocation? -/
def isGitAct : Act → Bool
  | Act.git _ => true
  | _ => false

/-- Any action other than toggling the self-write mute flag. -/
def nonMuteAct : Act → Bool
  | Act.setMute _ => false
  | _ => true

/-- Every action a computation can ever emit satisfies the predicate. -/
def TraceAll (p : Act → Bool) {α : Type} (x : M α) : Prop :=
  ∀ env i, ((x env i).2.2).all p = true

/-! ### Theorems -/

theorem M.bind_def {α β : Type} (x : M α) (f : α → M β) (env : Nat → Answer) (i : Nat) :
    (x >>= f) env i =
      match x env i with
      | (a, i2, t1) =>
        match f a env i2 with
        | (b, i3, t2) => (b, i3, t1 ++ t2) := rfl

theorem M.pure_def {α : Type} (a : α) (env : Nat → Answer) (i : Nat) :
    (pure a : M α) env i = (a, i, []) := rfl

/-- C1 -/
theorem handleSyncMessage_self_echo_noop (cfg : Cfg) (meta : SyncMetadata)
    (env : Nat → Answer) (i : Nat) (h : meta.peerID = cfg.username) :
    handleSyncMessage cfg meta env i = (none, i, []) := by
  unfold handleSyncMessage
  rw [if_pos h]
  rfl

theorem handleSyncMessage_self_echo_noop_witness :
    handleSyncMessage (Cfg.mk "alice" "r")
      (SyncMetadata.mk 1 0 "alice" [FileChange.mk "x" "modified" "h" "p"])
      (fun _ => Answer.res true "" "") 0 = (none, 0, []) :=
  handleSyncMessage_self_echo_noop _ _ _ _ rfl

/-- C9 -/
theorem processBatchInternal_clears_pending
    (pending : List (String × String)) (changes : List FileChange)
    (env : Nat → Answer) (i : Nat) :
    ((processBatchInternal pending changes) env i).1.1 = [] := by
  unfold processBatchInternal
  by_cases hp : pending.isEmpty
  · rw [if_pos hp]
    simpa [M.pure_def] using List.isEmpty_iff.mp hp
  · rw [if_neg hp]
    rw [M.bind_def]
    rcases hc : CommitChanges (batchCommitMessage pending) env i with ⟨a, i2, t1⟩
    cases a with
    | error e => simp [M.pure_def]
    | ok hsh =>
      dsimp only
      by_cases hh : hsh = ""
      · simp [hh, M.pure_def]
      · rw [if_neg hh, M.bind_def]
        rcases hg : GetPatch hsh env i2 with ⟨b, i3, t2⟩
        cases b with
        | error e => simp [M.pure_def]
        | ok patch => simp [M.pure_def]

/-- C2 -/
theorem rejected_patch_runs_no_command (patch : String) (e : PatchError)
    (h : validatePatch patch = some e) (dir strategy : String)
    (env : Nat → Answer) (i : Nat) :
    ApplyPatch patch env i = ((false, some (ApplyErr.validation e)), i, []) ∧
    ApplyPatchWithStrategy dir patch strategy env i =
      ((false, some (ApplyErr.validation e)), i, []) := by
  constructor
  · unfold ApplyPatch
    rw [h]
    rfl
  · unfold ApplyPatchWithStrategy
    rw [h]
    rfl

theorem rejected_patch_runs_no_command_witness :
    ApplyPatch "--- a/../evil\n+++ b/x" (fun _ => Answer.res true "" "") 0 =
      ((false, some (ApplyErr.validation (PatchError.dangerousPattern "../"))), 0, []) ∧
    ApplyPatchWithStrategy "r" "--- a/../evil\n+++ b/x" "merge"
      (fun _ => Answer.res true "" "") 0 =
      ((false, some (ApplyErr.validation (PatchError.dangerousPattern "../"))), 0, []) :=
  rejected_patch_runs_no_command _ _ (by rfl) _ _ _ _



theorem runGit_def (c : GitCmd) (env : Nat → Answer) (i : Nat) :
    runGit c env i = ((env i).toRes, i + 1, [Act.git c]) := rfl

theorem doAct_def (a : Act) (env : Nat → Answer) (i : Nat) :
    doAct a env i = (env i, i + 1, [a]) := rfl





/-- C5 counterexample: a patch that does not begin with From (it
starts with a diff file header, so it is diff-only in the claim's
classification) is nevertheless routed to the message-style mode and
returns auto_committed = true when it applies cleanly. -/
theorem ApplyPatch_prefix_selection_refuted :
    strStarts diffPatchWithFromSubject "From " = false ∧
    strStarts diffPatchWithFromSubject "diff --git" = true ∧
    ((ApplyPatch diffPatchWithFromSubject) allOkEnv 0).1 = (true, none) := by
  refine ⟨by decide, by decide, by decide⟩

/-- C5 amended: the mode is selected by substring containment, not by
prefix: an error-free ApplyPatch call returns auto_committed = true
exactly when the patch contains both "From " and "Subject:". -/
theorem ApplyPatch_mode_by_containment (patch : String) (env : Nat → Answer)
    (i : Nat) (hv : validatePatch patch = none)
    (h : ((ApplyPatch patch) env i).1.2 = none) :
    ((ApplyPatch patch) env i).1.1 = isFormatPatch patch := by
  unfold ApplyPatch at h ⊢
  rw [hv] at h ⊢
  by_cases hf : isFormatPatch patch <;>
    simp only [hf, if_true, if_false, M.bind_def, runGit_def, doAct_def,
      M.pure_def, Bool.false_eq_true] at h ⊢ <;>
    (try unfold commitFromSubject at h ⊢) <;>
    (repeat' split at h) <;>
    simp_all [M.bind_def, runGit_def, doAct_def, M.pure_def] <;>
    (repeat' split at h) <;>
    simp_all [M.bind_def, M.pure_def]

theorem ApplyPatch_mode_by_containment_witness :
    ((ApplyPatch "--- a/f.txt\n+++ b/f.txt\n@@ -1 +1 @@\n+x\n") allOkEnv 0).1.1 =
      isFormatPatch "--- a/f.txt\n+++ b/f.txt\n@@ -1 +1 @@\n+x\n" :=
  ApplyPatch_mode_by_containment _ allOkEnv 0 (by decide) (by decide)


theorem lookupA_insertA_self {α : Type} (m : List (String × α)) (k : String) (v : α) :
    lookupA (insertA m k v) k = some v := by
  induction m with
  | nil => simp [insertA, lookupA]
  | cons kv rest ih =>
    by_cases h : kv.1 = k
    · simp [insertA, h, lookupA]
    · simp [insertA, h, lookupA, ih]

theorem countKey_zero_lookupA {α : Type} (m : List (String × α)) (k : String)
    (h : countKey m k = 0) : lookupA m k = none := by
  induction m with
  | nil => simp [lookupA]
  | cons kv rest ih =>
    rw [countKey] at h
    by_cases hk : kv.1 = k
    · simp [hk] at h
    · rw [lookupA, if_neg hk]
      exact ih (by simpa [countKey, hk] using h)

theorem countKey_insertA_absent {α : Type} (m : List (String × α)) (k : String)
    (v : α) (h : countKey m k = 0) : countKey (insertA m k v) k = 1 := by
  induction m with
  | nil => simp [insertA, countKey]
  | cons kv rest ih =>
    by_cases hk : kv.1 = k
    · rw [countKey] at h
      simp [hk] at h
    · rw [insertA, if_neg hk, countKey]
      have := ih (by simpa [countKey, hk] using h)
      simpa [countKey, hk] using this

theorem create_then_fast_modify_keeps_created
    (env : WatchEnv) (st : WatcherState) (p rp : String) (t0 t1 : Nat)
    (hm : st.muted = false)
    (hi : isIgnored env p = false)
    (hr : env.rel p = some rp)
    (hd : lookupA st.lastEventTime p = none)
    (hs : (shouldSkipFile env.fs p).1 = false)
    (hc : countKey st.pendingFiles rp = 0)
    (ht : t1 - t0 < 500) :
    countKey (handleEvent env t1 (FsEvent.mk p FsOp.write)
      (handleEvent env t0 (FsEvent.mk p FsOp.create) st)).pendingFiles rp = 1 ∧
    lookupA (handleEvent env t1 (FsEvent.mk p FsOp.write)
      (handleEvent env t0 (FsEvent.mk p FsOp.create) st)).pendingFiles rp =
      some "created" := by
  have h1 : handleEvent env t0 (FsEvent.mk p FsOp.create) st =
      addToBatchF t0 { st with lastEventTime := insertA st.lastEventTime p t0 }
        rp "created" := by
    unfold handleEvent
    simp [hm, hi, hr, debounceEventF, hd, hs]
  have hfields : (addToBatchF t0
      { st with lastEventTime := insertA st.lastEventTime p t0 } rp "created").muted
        = false ∧
      (addToBatchF t0 { st with lastEventTime := insertA st.lastEventTime p t0 }
        rp "created").lastEventTime = insertA st.lastEventTime p t0 ∧
      (addToBatchF t0 { st with lastEventTime := insertA st.lastEventTime p t0 }
        rp "created").pendingFiles = insertA st.pendingFiles rp "created" := by
    refine ⟨?_, ?_, ?_⟩ <;> simp [addToBatchF, hm]
  have h2 : handleEvent env t1 (FsEvent.mk p FsOp.write)
      (handleEvent env t0 (FsEvent.mk p FsOp.create) st) =
      handleEvent env t0 (FsEvent.mk p FsOp.create) st := by
    rw [h1]
    unfold handleEvent
    rw [hfields.1]
    simp only [Bool.false_eq_true, if_false]
    rw [hi]
    simp only [Bool.false_eq_true, if_false, hr]
    rw [debounceEventF, hfields.2.1, lookupA_insertA_self]
    simp [ht]
  rw [h2, h1, hfields.2.2]
  exact ⟨countKey_insertA_absent _ _ _ hc, lookupA_insertA_self _ _ _⟩


/-- getDynamicBatchDurationF in a normal form where the elapsed time
is computed once. -/
theorem getDynamicBatchDurationF_eq (count lastReset now : Nat) :
    getDynamicBatchDurationF count lastReset now =
      ((if (if 60000 < now - lastReset then 0 else now - lastReset) = 0 then 5000
        else if 5 * (if 60000 < now - lastReset then 0 else now - lastReset) <
            ((if 60000 < now - lastReset then 0 else count) + 1) * 1000 then 5000
        else if (if 60000 < now - lastReset then 0 else now - lastReset) <
            ((if 60000 < now - lastReset then 0 else count) + 1) * 1000 then 2000
        else 1000),
       (if 60000 < now - lastReset then 0 else count) + 1,
       (if 60000 < now - lastReset then now else lastReset)) := by
  unfold getDynamicBatchDurationF
  by_cases hreset : 60000 < now - lastReset <;> simp [hreset, Nat.sub_self]

/-- C7 amended -/
theorem getDynamicBatchDuration_window_spec (count lastReset now c e : Nat)
    (hcdef : c = (if 60000 < now - lastReset then 0 else count) + 1)
    (hedef : e = if 60000 < now - lastReset then 0 else now - lastReset) :
    (getDynamicBatchDurationF count lastReset now).2.1 = c ∧
    (getDynamicBatchDurationF count lastReset now).2.2 =
      (if 60000 < now - lastReset then now else lastReset) ∧
    (e = 0 → (getDynamicBatchDurationF count lastReset now).1 = 5000) ∧
    (0 < e → 5 < (c : ℚ) / ((e : ℚ) / 1000) →
      (getDynamicBatchDurationF count lastReset now).1 = 5000) ∧
    (0 < e → 1 < (c : ℚ) / ((e : ℚ) / 1000) → (c : ℚ) / ((e : ℚ) / 1000) ≤ 5 →
      (getDynamicBatchDurationF count lastReset now).1 = 2000) ∧
    (0 < e → (c : ℚ) / ((e : ℚ) / 1000) ≤ 1 →
      (getDynamicBatchDurationF count lastReset now).1 = 1000) ∧
    (∀ st : WatcherState, st.recentEventCount = count →
      st.lastEventReset = lastReset → ∀ f ev,
      (addToBatchF now st f ev).scheduledWindow =
        some (getDynamicBatchDurationF count lastReset now).1) := by
  have hrate : 0 < e →
      (c : ℚ) / ((e : ℚ) / 1000) = ((c * 1000 : Nat) : ℚ) / ((e : Nat) : ℚ) := by
    intro hpos
    rw [div_div_eq_mul_div]
    push_cast
    ring_nf
  have hcast5 : ∀ (a b : Nat), 0 < b →
      ((5 : ℚ) < (a : ℚ) / (b : ℚ) ↔ 5 * b < a) := by
    intro a b hb
    rw [lt_div_iff₀ (by exact_mod_cast hb)]
    exact ⟨fun hlt => by exact_mod_cast hlt, fun hlt => by exact_mod_cast hlt⟩
  have hcast1 : ∀ (a b : Nat), 0 < b →
      ((1 : ℚ) < (a : ℚ) / (b : ℚ) ↔ b < a) := by
    intro a b hb
    rw [lt_div_iff₀ (by exact_mod_cast hb)]
    constructor
    · intro hlt
      exact_mod_cast (by simpa using hlt)
    · intro hlt
      simpa using (by exact_mod_cast hlt : ((b : ℚ)) < (a : ℚ))
  rw [getDynamicBatchDurationF_eq, ← hcdef, ← hedef]
  refine ⟨rfl, rfl, ?_, ?_, ?_, ?_, ?_⟩
  · intro he
    simp [he]
  · intro hpos hq
    rw [hrate hpos, hcast5 (c * 1000) e hpos] at hq
    simp [Nat.pos_iff_ne_zero.mp hpos, hq]
  · intro hpos hq1 hq5
    rw [hrate hpos, hcast1 (c * 1000) e hpos] at hq1
    have h5 : ¬(5 * e < c * 1000) := by
      intro hgt
      rw [hrate hpos] at hq5
      exact absurd ((hcast5 (c * 1000) e hpos).mpr hgt) (not_lt.mpr hq5)
    simp [Nat.pos_iff_ne_zero.mp hpos, hq1, h5]
  · intro hpos hq1
    have h1 : ¬(e < c * 1000) := by
      intro hgt
      rw [hrate hpos] at hq1
      exact absurd ((hcast1 (c * 1000) e hpos).mpr hgt) (not_lt.mpr hq1)
    have h5 : ¬(5 * e < c * 1000) := by
      intro hgt
      exact h1 (by omega)
    simp [Nat.pos_iff_ne_zero.mp hpos, h1, h5]
  · intro st hc hl f ev
    rw [addToBatchF]
    simp only [hc, hl]
    rw [getDynamicBatchDurationF_eq, ← hcdef, ← hedef]

theorem getDynamicBatchDuration_window_spec_witness :
    (getDynamicBatchDurationF 0 0 1000).1 = 1000 :=
  ((getDynamicBatchDuration_window_spec 0 0 1000 1 1000 (by norm_num)
    (by norm_num)).2.2.2.2.2.1) (by norm_num) (by norm_num)


/-- C7 counterexample -/
theorem batch_window_at_rate_one_refuted :
    (((29 : Nat) + 1 : ℚ) / (((30000 : Nat) : ℚ) / 1000) = 1) ∧
    (addToBatchF 30000 (WatcherState.mk false [] [] 29 0 5000 none)
      "f.txt" "modified").scheduledWindow = some 1000 := by
  constructor
  · norm_num
  · decide

/-- C8 amended -/
theorem shouldSkipFile_size_boundary (fs : String → StatResult) (p : String)
    (size : Int) (hf : fs p = StatResult.found size false)
    (hb : isBinaryFile p = false) :
    (shouldSkipFile fs p).1 = decide (size > maxFileSize) := by
  unfold shouldSkipFile
  rw [hf]
  by_cases hgt : size > maxFileSize <;> simp [hgt, hb]

theorem shouldSkipFile_size_boundary_witness :
    (shouldSkipFile (fun _ => StatResult.found (10 * 1024 * 1024) false) "a.txt").1 =
      decide (((10 * 1024 * 1024 : Int)) > maxFileSize) :=
  shouldSkipFile_size_boundary _ _ _ rfl (by decide)







/-- C8 counterexample: a file whose size is exactly the 10 MiB cap is
not skipped and its create event does enter the pending batch. -/
theorem size_at_cap_not_dropped :
    shouldSkipFile capFs "r/big.txt" = (false, "") ∧
    (handleEvent capEnv 1000 (FsEvent.mk "r/big.txt" FsOp.create)
      freshWatcherState).pendingFiles = [("big.txt", "created")] := by
  exact ⟨by decide, by decide⟩



/-- C6 counterexample: a create at t=1000 ms followed by a modify at
t=1200 ms to the same path leaves one batch entry of kind created, not
modified: the modify is dropped by the 500 ms per-path debounce. -/
theorem create_then_fast_modify_refuted :
    (handleEvent cexEnv 1200 (FsEvent.mk "r/a.txt" FsOp.write)
      (handleEvent cexEnv 1000 (FsEvent.mk "r/a.txt" FsOp.create)
        freshWatcherState)).pendingFiles = [("a.txt", "created")] ∧
    lookupA (handleEvent cexEnv 1200 (FsEvent.mk "r/a.txt" FsOp.write)
      (handleEvent cexEnv 1000 (FsEvent.mk "r/a.txt" FsOp.create)
        freshWatcherState)).pendingFiles "a.txt" ≠ some "modified" := by
  exact ⟨by decide, by decide⟩

theorem create_then_fast_modify_keeps_created_witness :
    countKey (handleEvent cexEnv 1200 (FsEvent.mk "r/a.txt" FsOp.write)
      (handleEvent cexEnv 1000 (FsEvent.mk "r/a.txt" FsOp.create)
        freshWatcherState)).pendingFiles "a.txt" = 1 ∧
    lookupA (handleEvent cexEnv 1200 (FsEvent.mk "r/a.txt" FsOp.write)
      (handleEvent cexEnv 1000 (FsEvent.mk "r/a.txt" FsOp.create)
        freshWatcherState)).pendingFiles "a.txt" = some "created" :=
  create_then_fast_modify_keeps_created cexEnv freshWatcherState
    "r/a.txt" "a.txt" 1000 1200 (by decide) (by decide) (by decide) (by decide)
    (by decide) (by decide) (by decide)






theorem traceAll_pure {α : Type} (p : Act → Bool) (a : α) :
    TraceAll p (pure a) := fun _ _ => rfl

theorem M.bind_proj {α β : Type} (x : M α) (f : α → M β) (env : Nat → Answer)
    (i : Nat) :
    (x >>= f) env i =
      ((f (x env i).1 env (x env i).2.1).1,
       (f (x env i).1 env (x env i).2.1).2.1,
       (x env i).2.2 ++ (f (x env i).1 env (x env i).2.1).2.2) := rfl

theorem traceAll_bind {α β : Type} {p : Act → Bool} {x : M α} {f : α → M β}
    (hx : TraceAll p x) (hf : ∀ a, TraceAll p (f a)) : TraceAll p (x >>= f) := by
  intro env i
  rw [M.bind_proj]
  dsimp only
  rw [List.all_append, Bool.and_eq_true]
  exact ⟨hx env i, hf (x env i).1 env (x env i).2.1⟩

theorem traceAll_mono {p q : Act → Bool} (hpq : ∀ a, p a = true → q a = true)
    {α : Type} {x : M α} (h : TraceAll p x) : TraceAll q x := by
  intro env i
  have := h env i
  rw [List.all_eq_true] at this ⊢
  exact fun a ha => hpq a (this a ha)

theorem traceAll_runGit (p : Act → Bool) (hg : ∀ c, p (Act.git c) = true)
    (c : GitCmd) : TraceAll p (runGit c) := by
  intro env i
  simp [runGit_def, hg]

theorem traceAll_CommitChanges (msg : String) :
    TraceAll isGitAct (CommitChanges msg) := by
  intro env i
  unfold CommitChanges
  simp only [M.bind_def, runGit_def, doAct_def, M.pure_def]
  (repeat' split) <;>
    simp [isGitAct, M.bind_def, runGit_def, doAct_def, M.pure_def] <;>
    (repeat' split) <;>
    simp [isGitAct, M.bind_def, runGit_def, doAct_def, M.pure_def] <;>
    (repeat' split) <;>
    simp [isGitAct, M.bind_def, runGit_def, doAct_def, M.pure_def]

theorem traceAll_ApplyPatch (patch : String) :
    TraceAll isGitAct (ApplyPatch patch) := by
  intro env i
  unfold ApplyPatch commitFromSubject
  cases hv : validatePatch patch with
  | some e => simp [hv, M.pure_def]
  | none =>
    simp only [hv, M.bind_def, runGit_def, doAct_def, M.pure_def]
    (repeat' split) <;>
      simp [isGitAct, M.bind_def, runGit_def, doAct_def, M.pure_def] <;>
      (repeat' split) <;>
      simp [isGitAct, M.bind_def, runGit_def, doAct_def, M.pure_def] <;>
      (repeat' split) <;>
      simp [isGitAct, M.bind_def, runGit_def, doAct_def, M.pure_def]

theorem traceAll_processChange (cfg : Cfg) (c : FileChange) :
    TraceAll nonMuteAct (processChange cfg c) := by
  intro env i
  unfold processChange
  by_cases hp : c.patch ≠ ""
  · rw [if_pos hp, M.bind_def]
    rcases ha : ApplyPatch c.patch env i with ⟨⟨auto, err⟩, i2, t1⟩
    have e1 := traceAll_mono (p := isGitAct) (q := nonMuteAct)
      (by intro a h; cases a <;> simp_all [isGitAct, nonMuteAct])
      (traceAll_ApplyPatch c.patch) env i
    rw [ha] at e1
    cases err <;> simp_all [M.pure_def, List.all_append]
  · rw [if_neg hp]
    split
    · rw [M.bind_def, doAct_def]
      cases hrm : (env i).toRm <;> simp [hrm, M.pure_def, nonMuteAct]
    · simp [M.pure_def]

theorem traceAll_processChanges (cfg : Cfg) (l : List FileChange) :
    ∀ acc auto, TraceAll nonMuteAct (processChanges cfg l acc auto) := by
  induction l with
  | nil => intro acc auto; exact traceAll_pure _ _
  | cons c rest ih =>
    intro acc auto
    unfold processChanges
    exact traceAll_bind (traceAll_processChange cfg c) (fun a => ih _ _)


/-- C3: (a) while the mute flag is set the event loop discards every
event without touching the debounce table or the pending batch;
(b) the consumer brackets every non-self message with set-mute,
sleeps 100 ms before clearing it, and never touches the flag in
between. -/
theorem selfWriteMute_discipline :
    (∀ (env : WatchEnv) (now : Nat) (ev : FsEvent) (st : WatcherState),
      st.muted = true → handleEvent env now ev st = st) ∧
    (∀ (cfg : Cfg) (meta : SyncMetadata), meta.peerID ≠ cfg.username →
      ∀ (env : Nat → Answer) (i : Nat),
      ∃ mid, (handleSyncMessage cfg meta env i).2.2 =
        Act.setMute true :: (mid ++ [Act.sleepMs 100, Act.setMute false]) ∧
        mid.all nonMuteAct = true) := by
  constructor
  · intro env now ev st h
    unfold handleEvent
    rw [h]
    rfl
  · intro cfg meta h env i
    unfold handleSyncMessage
    rw [if_neg h]
    simp only [M.bind_proj, doAct_def]
    rcases hp : processChanges cfg meta.changes [] false env (i + 1)
      with ⟨⟨files, auto⟩, i2, t1⟩
    have ht1 : t1.all nonMuteAct = true := by
      have := traceAll_processChanges cfg meta.changes [] false env (i + 1)
      rw [hp] at this
      exact this
    dsimp only
    by_cases hcond : (decide (files.length > 0) && !auto) = true
    · rw [if_pos hcond]
      simp only [M.bind_proj, doAct_def, M.pure_def]
      rcases hq : CommitChanges (syncCommitMessage files.length meta.peerID) env i2
        with ⟨r, i3, t2⟩
      have ht2 : t2.all nonMuteAct = true := by
        have hg := traceAll_CommitChanges (syncCommitMessage files.length meta.peerID) env i2
        rw [hq] at hg
        have hmono : ∀ a, isGitAct a = true → nonMuteAct a = true := by
          intro a ha
          cases a <;> simp_all [isGitAct, nonMuteAct]
        rw [List.all_eq_true] at hg ⊢
        exact fun a ha => hmono a (hg a ha)
      dsimp only
      refine ⟨t1 ++ t2, ?_, ?_⟩
      · simp
      · rw [List.all_append, Bool.and_eq_true]
        exact ⟨ht1, ht2⟩
    · rw [if_neg hcond]
      simp only [M.bind_proj, doAct_def, M.pure_def]
      refine ⟨t1, ?_, ht1⟩
      simp

theorem selfWriteMute_discipline_witness :
    handleEvent cexEnv 1000 (FsEvent.mk "r/a.txt" FsOp.create)
      (WatcherState.mk true [] [] 0 0 5000 none) =
      WatcherState.mk true [] [] 0 0 5000 none ∧
    ∃ mid, (handleSyncMessage (Cfg.mk "alice" "r")
        (SyncMetadata.mk 1 0 "bob" [FileChange.mk "x" "deleted" "" ""]) allOkEnv 0).2.2 =
      Act.setMute true :: (mid ++ [Act.sleepMs 100, Act.setMute false]) ∧
      mid.all nonMuteAct = true :=
  ⟨selfWriteMute_discipline.1 cexEnv 1000 (FsEvent.mk "r/a.txt" FsOp.create)
      (WatcherState.mk true [] [] 0 0 5000 none) rfl,
   selfWriteMute_discipline.2 (Cfg.mk "alice" "r")
      (SyncMetadata.mk 1 0 "bob" [FileChange.mk "x" "deleted" "" ""])
      (by decide) allOkEnv 0⟩


/-- C10: per change, a non-empty patch wins: the trace is git-only (no
path removal); the deletion branch runs exactly when the patch is
empty and the event is deleted; an empty patch with any other event
does nothing at all. -/
theorem processChange_dispatch (cfg : Cfg) (c : FileChange)
    (env : Nat → Answer) (i : Nat) :
    (c.patch ≠ "" → ((processChange cfg c env i).2.2).all isGitAct = true) ∧
    (c.patch = "" → c.event = "deleted" →
      (processChange cfg c env i).2.2 =
        [Act.removeAll (cfg.rootDir ++ "/" ++ c.file)]) ∧
    (c.patch = "" → c.event ≠ "deleted" →
      processChange cfg c env i = ((none, false), i, [])) := by
  refine ⟨?_, ?_, ?_⟩
  · intro hp
    unfold processChange
    rw [if_pos hp]
    simp only [M.bind_proj]
    rcases ha : ApplyPatch c.patch env i with ⟨⟨auto, err⟩, i2, t1⟩
    have e1 := traceAll_ApplyPatch c.patch env i
    rw [ha] at e1
    dsimp only
    cases err <;> simp [M.pure_def, List.all_append, e1]
  · intro hp hd
    unfold processChange
    rw [if_neg (by simp [hp]), if_pos hd]
    simp only [M.bind_proj, doAct_def]
    cases hrm : (env i).toRm <;> simp [hrm, M.pure_def]
  · intro hp hd
    unfold processChange
    rw [if_neg (by simp [hp]), if_neg hd]
    rfl

theorem processChange_dispatch_witness :
    (processChange (Cfg.mk "alice" "r")
      (FileChange.mk "x" "deleted" "" "") allOkEnv 0).2.2 =
      [Act.removeAll ("r" ++ "/" ++ "x")] ∧
    processChange (Cfg.mk "alice" "r")
      (FileChange.mk "x" "created" "" "") allOkEnv 0 = ((none, false), 0, []) :=
  ⟨(processChange_dispatch (Cfg.mk "alice" "r")
      (FileChange.mk "x" "deleted" "" "") allOkEnv 0).2.1 rfl rfl,
   (processChange_dispatch (Cfg.mk "alice" "r")
      (FileChange.mk "x" "created" "" "") allOkEnv 0).2.2 rfl (by decide)⟩


theorem processChange_file (cfg : Cfg) (c : FileChange) (env : Nat → Answer)
    (i : Nat) :
    (processChange cfg c env i).1.1 = none ∨
    (processChange cfg c env i).1.1 = some c.file := by
  unfold processChange
  split
  · simp only [M.bind_proj]
    rcases ha : ApplyPatch c.patch env i with ⟨⟨auto, err⟩, i2, t1⟩
    dsimp only
    cases err <;> simp [M.pure_def]
  · split
    · simp only [M.bind_proj, doAct_def]
      cases hrm : (env i).toRm <;> simp [hrm, M.pure_def]
    · left
      rfl

theorem processChanges_files_sub (cfg : Cfg) :
    ∀ (l : List FileChange) (acc : List String) (auto : Bool)
      (env : Nat → Answer) (i : Nat),
      ∀ f ∈ ((processChanges cfg l acc auto) env i).1.1,
        f ∈ acc ∨ f ∈ l.map FileChange.file := by
  intro l
  induction l with
  | nil =>
    intro acc auto env i f hf
    left
    simpa [processChanges, M.pure_def] using hf
  | cons c rest ih =>
    intro acc auto env i f hf
    unfold processChanges at hf
    simp only [M.bind_proj] at hf
    have step := ih (acc ++ ((processChange cfg c env i).1.1).toList)
      (auto || (processChange cfg c env i).1.2) env
      (processChange cfg c env i).2.1 f hf
    rcases step with hacc | hrest
    · rcases List.mem_append.mp hacc with h1 | h2
      · left
        exact h1
      · right
        rcases processChange_file cfg c env i with hn | hs
        · rw [hn] at h2
          simp at h2
        · rw [hs] at h2
          simp only [Option.toList_some, List.mem_singleton] at h2
          simp [h2]
    · right
      simp [hrest]

/-- C4: the consumer requests exactly one synthetic commit, with the
[SYNC] message counting the applied changes, precisely when at least
one change applied and none auto-committed; any auto-commit suppresses
the synthesis.  Applied files all come from the message. -/
theorem syncCommit_synthesis (cfg : Cfg) (meta : SyncMetadata)
    (env : Nat → Answer) (i : Nat) (h : meta.peerID ≠ cfg.username) :
    ∃ res, (handleSyncMessage cfg meta env i).1 = some res ∧
      (res.syntheticCommitMsg =
        if res.changedFiles.length > 0 ∧ res.autoCommittedAny = false
        then some (syncCommitMessage res.changedFiles.length meta.peerID)
        else none) ∧
      (res.autoCommittedAny = true → res.syntheticCommitMsg = none) ∧
      (∀ f ∈ res.changedFiles, f ∈ meta.changes.map FileChange.file) := by
  unfold handleSyncMessage
  rw [if_neg h]
  simp only [M.bind_proj, doAct_def]
  rcases hp : processChanges cfg meta.changes [] false env (i + 1)
    with ⟨⟨files, auto⟩, i2, t1⟩
  dsimp only
  have hsub : ∀ f ∈ files, f ∈ meta.changes.map FileChange.file := by
    intro f hf
    have step := processChanges_files_sub cfg meta.changes [] false env (i + 1) f
      (by rw [hp]; exact hf)
    rcases step with h0 | h1
    · simp at h0
    · exact h1
  by_cases hcond : (decide (files.length > 0) && !auto) = true
  · rw [if_pos hcond]
    simp only [M.bind_proj, doAct_def, M.pure_def]
    rw [Bool.and_eq_true, decide_eq_true_iff, Bool.not_eq_true'] at hcond
    refine ⟨⟨files, auto, some (syncCommitMessage files.length meta.peerID)⟩,
      rfl, ?_, ?_, hsub⟩
    · rw [if_pos ⟨hcond.1, hcond.2⟩]
    · intro hauto
      have hat : auto = true := hauto
      exact absurd (hcond.2.symm.trans hat) (by simp)
  · rw [if_neg hcond]
    simp only [M.bind_proj, doAct_def, M.pure_def]
    refine ⟨⟨files, auto, none⟩, rfl, ?_, fun _ => rfl, hsub⟩
    have hfalse : ¬(files.length > 0 ∧ auto = false) := by
      intro hand
      exact hcond (by simp [hand.1, hand.2])
    rw [if_neg hfalse]

theorem syncCommit_synthesis_witness :
    ∃ res, (handleSyncMessage (Cfg.mk "alice" "r")
        (SyncMetadata.mk 1 0 "bob" [FileChange.mk "x" "deleted" "" ""])
        allOkEnv 0).1 = some res ∧
      (res.syntheticCommitMsg =
        if res.changedFiles.length > 0 ∧ res.autoCommittedAny = false
        then some (syncCommitMessage res.changedFiles.length "bob")
        else none) ∧
      (res.autoCommittedAny = true → res.syntheticCommitMsg = none) ∧
      (∀ f ∈ res.changedFiles,
        f ∈ [FileChange.mk "x" "deleted" "" ""].map FileChange.file) :=
  syncCommit_synthesis (Cfg.mk "alice" "r")
    (SyncMetadata.mk 1 0 "bob" [FileChange.mk "x" "deleted" "" ""])
    allOkEnv 0 (by decide)

end Axle
